import Mathlib

set_option maxHeartbeats 1000000

attribute [local semireducible] Rat.mul Rat.add Rat.inv Rat.sub

/-!
Verification development for the persona-driven document analysis pipeline
(`challenge_1b.py`): a shallow embedding of the document structuring and
relevance-ranking core, together with theorems about its behaviour.

Modelling conventions:
* Python strings are `List Char`; `str.lower` is `Char.toLower` mapped over
  the characters (the texts involved are ASCII).
* Python floats (font sizes, relevance scores) are modelled as `ℚ`.
* Fallible operations (PDF extraction, division by zero in the average font
  size) are modelled with `Except`; the `try/except` in `extract_structure`
  corresponds to the `Except.error` branches collapsing to `[]`.
* Python's regex prefix matches (`re.match`) for the three heading-marker
  patterns are implemented as greedy matchers; for these particular patterns
  greedy matching coincides with backtracking semantics, because every place
  where the regex could backtrack is forced (digit runs end only at
  non-digits, the optional separator is never whitespace).
-/

/-! ## Text utilities (Python `\s`, `str.strip`, `re.sub(r'\s+', ' ', ·)`) -/

/-- Python regex `\s` / `str` whitespace (the ASCII cases). -/
def pyIsSpace (c : Char) : Bool :=
  c == ' ' || c == '\t' || c == '\n' || c == '\x0b' || c == '\x0c' || c == '\r'

/-- Collapse every maximal run of whitespace to a single `' '`
(Python `re.sub(r'\s+', ' ', s)`). -/
def collapseWs (cs : List Char) : List Char :=
  cs.foldr (fun c acc =>
    if pyIsSpace c then
      match acc with
      | ' ' :: _ => acc
      | _ => ' ' :: acc
    else c :: acc) []

/-- Python `str.strip()`: drop leading and trailing whitespace. -/
def stripChars (cs : List Char) : List Char :=
  ((cs.dropWhile pyIsSpace).reverse.dropWhile pyIsSpace).reverse

/-- `re.sub(r'\s+', ' ', s).strip()` as used in `_format_sub_sections`. -/
def normalizeWs (cs : List Char) : List Char := stripChars (collapseWs cs)

/-- Python `str.lower()` (ASCII). -/
def toLowerStr (cs : List Char) : List Char := cs.map Char.toLower

/-- Python substring test `needle in haystack`. -/
def isSubstr (n : List Char) : List Char → Bool
  | [] => n.isEmpty
  | c :: cs => n.isPrefixOf (c :: cs) || isSubstr n cs

/-! ## Heading-marker patterns (`DocumentParser._is_heading_pattern`) -/

/-- The separator class `[\.\)]` of the heading-marker regexes. -/
def isSepChar (c : Char) : Bool := c == '.' || c == ')'

/-- Prefix match for `\s+`: at least one whitespace character follows. -/
def matchWs1 : List Char → Bool
  | c :: _ => pyIsSpace c
  | [] => false

/-- Scanner for the tail of `^\d+(\.\d+)*[\.\)]?\s+` once at least one digit
has been consumed: continue the digit run, start a new `\.\d+` group, use a
separator from `[\.\)]` and demand whitespace, or end the run at whitespace.
Greedy scanning agrees with the regex since every branch point is forced. -/
def decScan : List Char → Bool
  | [] => false
  | c :: rest =>
    if c.isDigit then decScan rest
    else if c = '.' then
      match rest with
      | d :: rest2 => if d.isDigit then decScan rest2 else matchWs1 rest
      | [] => false
    else if c = ')' then matchWs1 rest
    else pyIsSpace c

/-- Prefix match for `^\d+(\.\d+)*[\.\)]?\s+` (decimal outline marker). -/
def matchDecimalMarker : List Char → Bool
  | c :: rest => c.isDigit && decScan rest
  | [] => false

/-- The character class `[IVXLCDMivxlcdm]`. -/
def isRomanChar (c : Char) : Bool :=
  ['I', 'V', 'X', 'L', 'C', 'D', 'M', 'i', 'v', 'x', 'l', 'c', 'd', 'm'].contains c

/-- Scanner for the tail of `^[IVXLCDMivxlcdm]+[\.\)]\s+` once one roman
character has been consumed. -/
def romanScan : List Char → Bool
  | [] => false
  | c :: rest =>
    if isRomanChar c then romanScan rest
    else if isSepChar c then matchWs1 rest
    else false

/-- Prefix match for `^[IVXLCDMivxlcdm]+[\.\)]\s+` (roman-numeral marker). -/
def matchRomanMarker : List Char → Bool
  | c :: rest => isRomanChar c && romanScan rest
  | [] => false

/-- Prefix match for `^[A-Za-z][\.\)]\s+` (single-letter marker). -/
def matchLetterMarker : List Char → Bool
  | c :: s :: rest => c.isAlpha && isSepChar s && matchWs1 rest
  | _ => false

/-- `DocumentParser._is_heading_pattern`: an empty text never matches;
otherwise any of the three marker patterns suffices. -/
def is_heading_pattern (text : List Char) : Bool :=
  if text = [] then false
  else matchDecimalMarker text || matchRomanMarker text || matchLetterMarker text

/-! ## Heading Classifier (`extract_structure`, the `is_heading` expression) -/

/-- The `is_heading` decision of `extract_structure` (lines 45-50 of the
source): logical OR of the four signals, in source order.  The float
literals `1.1` and `0.9` are modelled as the rationals `11/10`, `9/10`. -/
def is_heading (lineText : List Char) (fontSize : ℚ) (isBold : Bool) (avg : ℚ) : Bool :=
  decide (avg * mkRat 11 10 < fontSize)
  || (isBold && decide (avg * mkRat 9 10 < fontSize))
  || is_heading_pattern lineText
  || (decide (lineText.length < 100) && isBold)

/-! ## Excerpt Refiner (`DocumentAnalyst._format_sub_sections`, refinement step) -/

/-- Python `str.rfind(ch)`: the highest index at which `ch` occurs, `-1` if
it does not occur. -/
def rfindC : List Char → Char → Int
  | [], _ => -1
  | c :: cs, t =>
    if 0 ≤ rfindC cs t then rfindC cs t + 1
    else if c = t then 0 else -1

/-- `max(rfind('.'), rfind('!'), rfind('?'))` over a window, as computed by
`_format_sub_sections`. -/
def lastSentenceEnd (w : List Char) : Int :=
  max (rfindC w '.') (max (rfindC w '!') (rfindC w '?'))

/-- Sentence-terminal punctuation. -/
def isSentenceTerm (c : Char) : Bool := c == '.' || c == '!' || c == '?'

/-- The refinement step of `_format_sub_sections`: normalize whitespace; keep
texts of at most 500 characters; otherwise truncate to the first 400
characters ending at the last sentence mark when that mark sits past index
200, falling back to the first 300 characters plus an ellipsis. -/
def format_refined (content : List Char) : List Char :=
  if 500 < (normalizeWs content).length then
    if 200 < lastSentenceEnd ((normalizeWs content).take 400) then
      ((normalizeWs content).take 400).take
        ((lastSentenceEnd ((normalizeWs content).take 400)).toNat + 1)
    else (normalizeWs content).take 300 ++ ('.' :: '.' :: '.' :: [])
  else normalizeWs content

/-! ## Section Segmenter (`DocumentParser.extract_structure`) -/

/-- One text span of a PDF line, as delivered by the extraction service:
its text, font size, flag bits (bit 4 = bold) and horizontal position. -/
structure Span where
  text : List Char
  size : ℚ
  flags : ℕ
  x : ℚ
deriving DecidableEq, Repr

/-- One block of a page: either a text block holding lines of spans, or an
image block (skipped by the parser's `"lines" not in block` test). -/
inductive Block where
  | text (lines : List (List Span)) : Block
  | image : Block
deriving DecidableEq, Repr

/-- A page is its ordered list of blocks. -/
abbrev PdfPage := List Block

/-- A raw document is its ordered list of pages. -/
abbrev RawDoc := List PdfPage

/-- The mutable `current_heading` dictionary of `extract_structure`. -/
structure PSection where
  level : List Char
  text : List Char
  page : ℕ
  content : List Char
deriving DecidableEq, Repr

/-- Stable insertion of `a` into `l`, placing `a` after existing elements
with an equal key: the insertion step of a stable sort by key. -/
def stableInsert (key : Span → ℚ) (a : Span) : List Span → List Span
  | [] => [a]
  | b :: bs => if key a < key b then a :: b :: bs else b :: stableInsert key a bs

/-- Python `sorted(spans, key=lambda s: s['bbox'][0])`: a stable sort of the
spans by horizontal position. -/
def sortSpans (spans : List Span) : List Span :=
  spans.foldr (stableInsert (fun s => s.x)) []

/-- `" ".join(s["text"] for s in spans).strip()` over the sorted spans. -/
def lineTextOf (spans : List Span) : List Char :=
  stripChars (List.intercalate [' '] ((sortSpans spans).map (fun s => s.text)))

/-- The seeded synthetic leading section of `extract_structure`. -/
def seedSection : PSection :=
  { level := "title".data, text := "Introduction".data, page := 0, content := [] }

/-- The segmentation state: the open current section and the closed ones. -/
structure ExtractState where
  current : PSection
  sections : List PSection
deriving DecidableEq, Repr

/-- The body of `extract_structure`'s line loop: skip blank lines; on a
heading line that is not the seed literal close the current section
(keeping it only when its body is non-blank) and open a new one; otherwise
accumulate the line text into the current body. -/
def processLine (avg : ℚ) (pageNum : ℕ) (spans : List Span) (st : ExtractState) : ExtractState :=
  if lineTextOf spans = [] then st
  else
    match sortSpans spans with
    | [] => st
    | s0 :: _ =>
      if is_heading (lineTextOf spans) s0.size (decide (s0.flags &&& 16 ≠ 0)) avg = true
          ∧ lineTextOf spans ≠ "Introduction".data then
        { current := { level := "H1".data, text := lineTextOf spans, page := pageNum, content := [] }
          sections :=
            if stripChars st.current.content ≠ [] then st.sections ++ [st.current]
            else st.sections }
      else
        { current := { st.current with content := st.current.content ++ lineTextOf spans ++ [' '] }
          sections := st.sections }

/-- Flatten a document into its ordered `(page index, line spans)` stream,
skipping image blocks, starting page numbering at `n`. -/
def linesFrom : ℕ → List PdfPage → List (ℕ × List Span)
  | _, [] => []
  | n, page :: rest =>
      page.flatMap (fun b =>
        match b with
        | Block.text ls => ls.map (fun l => (n, l))
        | Block.image => []) ++ linesFrom (n + 1) rest

/-- The `(page_num, line)` stream of a document (`enumerate(doc)` plus the
block and line loops). -/
def extractLines (d : RawDoc) : List (ℕ × List Span) := linesFrom 0 d

/-- All spans of a document in reading order, as traversed by
`_calculate_average_font_size`. -/
def docSpans (d : RawDoc) : List Span :=
  d.flatMap (fun page =>
    page.flatMap (fun b =>
      match b with
      | Block.text ls => ls.flatMap (fun l => l)
      | Block.image => []))

/-- `DocumentParser._calculate_average_font_size`: the character-weighted
mean font size; `12.0` when there are no spans at all; Python raises
`ZeroDivisionError` when spans exist but carry zero characters in total,
modelled as `Except.error`. -/
def calculate_average_font_size (d : RawDoc) : Except String ℚ :=
  if docSpans d = [] then Except.ok 12
  else if ((docSpans d).map (fun s => s.text.length)).sum = 0 then
    Except.error "ZeroDivisionError"
  else
    Except.ok (Rat.div (((docSpans d).map (fun s => s.size * (s.text.length : ℚ))).sum)
      ((((docSpans d).map (fun s => s.text.length)).sum : ℕ) : ℚ))

/-- The segmentation fold of `extract_structure` over an opened document's
line stream, from the seeded state. -/
def extractFold (avg : ℚ) (d : RawDoc) : ExtractState :=
  (extractLines d).foldl (fun st pl => processLine avg pl.1 pl.2 st) ⟨seedSection, []⟩

/-- The segmentation loop of `extract_structure`: run the fold, then close
the final current section under the same non-blank rule. -/
def extractLoop (avg : ℚ) (d : RawDoc) : List PSection :=
  if stripChars (extractFold avg d).current.content ≠ [] then
    (extractFold avg d).sections ++ [(extractFold avg d).current]
  else (extractFold avg d).sections

/-- `DocumentParser.extract_structure`: a failed extraction (the `Except`
models any exception raised while opening or parsing the document,
including the average-font-size division) yields zero sections. -/
def extract_structure (doc : Except String RawDoc) : List PSection :=
  match doc with
  | Except.error _ => []
  | Except.ok d =>
    match calculate_average_font_size d with
    | Except.error _ => []
    | Except.ok avg => extractLoop avg d

/-! ## Orchestrator pooling (`DocumentAnalyst.analyze`, parsing loop) -/

/-- The pooling loop of `analyze`: parse each document and tag every
resulting section with its source document's name. -/
def pool_sections (docs : List (List Char × Except String RawDoc)) :
    List (List Char × PSection) :=
  docs.flatMap (fun d => (extract_structure d.2).map (fun s => (d.1, s)))

/-! ## Relevance Scorer boost (`analyze`, keyword loop) -/

/-- The `boost_keywords` configuration list of `analyze`, in source order. -/
def boost_keywords : List (List Char) :=
  ["coastal".data, "beach".data, "nightlife".data, "entertainment".data, "bar".data,
   "club".data, "activities".data, "things to do".data, "comprehensive guide".data,
   "cities".data, "culinary".data, "cooking".data, "wine".data, "group".data,
   "friends".data, "young".data, "packing".data, "tips".data, "tricks".data,
   "practical".data]

/-- One keyword test of the boost loop: a case-insensitive substring match
against the section heading or the section body. -/
def keywordHit (kw title content : List Char) : Bool :=
  isSubstr kw (toLowerStr title) || isSubstr kw (toLowerStr content)

/-- The boost loop of `analyze` (lines 130-132 of the source): starting from
the cosine score, add `0.1` for every keyword of `boost_keywords` that
matches the section's heading or body. -/
def applyKeywordBoost (rel : ℚ) (title content : List Char) : ℚ :=
  boost_keywords.foldl (fun r kw => if keywordHit kw title content then r + mkRat 1 10 else r) rel

/-! ## Diverse Top-K Selector (`DocumentAnalyst._select_diverse_sections`) -/

/-- A pooled, scored section as handled by the analyst: the parser fields
plus the attached source document and relevance. -/
structure ASection where
  document : List Char
  text : List Char
  page : ℕ
  content : List Char
  relevance : ℚ
deriving DecidableEq, Repr

/-- Python `doc_count.get(name, 0)` on the per-document counter. -/
def dictGet (m : List (List Char × ℕ)) (k : List Char) : ℕ :=
  match m with
  | [] => 0
  | p :: rest => if p.1 = k then p.2 else dictGet rest k

/-- Python `doc_count[name] = v` on the per-document counter. -/
def dictSet (m : List (List Char × ℕ)) (k : List Char) (v : ℕ) : List (List Char × ℕ) :=
  match m with
  | [] => [(k, v)]
  | p :: rest => if p.1 = k then (k, v) :: rest else p :: dictSet rest k v

/-- One iteration of the selector's first pass: admit the section when its
document has fewer than two admitted sections and the selection is not yet
full. -/
def pass1Step (maxSections : ℕ) :
    List ASection × List (List Char × ℕ) → ASection → List ASection × List (List Char × ℕ)
  | (selected, dc), s =>
    if dictGet dc s.document < 2 ∧ selected.length < maxSections then
      (selected ++ [s], dictSet dc s.document (dictGet dc s.document + 1))
    else (selected, dc)

/-- The selector's diversity-first pass over the ranked sections. -/
def selectPass1 (ranked : List ASection) (maxSections : ℕ) :
    List ASection × List (List Char × ℕ) :=
  ranked.foldl (pass1Step maxSections) ([], [])

/-- The selector's fill pass: scan the ranked sections again, stopping once
the selection is full, appending any section not already selected. -/
def selectPass2 (maxSections : ℕ) : List ASection → List ASection → List ASection
  | [], selected => selected
  | s :: rest, selected =>
    if maxSections ≤ selected.length then selected
    else if s ∈ selected then selectPass2 maxSections rest selected
    else selectPass2 maxSections rest (selected ++ [s])

/-- `DocumentAnalyst._select_diverse_sections`: the two passes followed by
the final `[:max_sections]` truncation. -/
def select_diverse_sections (ranked : List ASection) (maxSections : ℕ := 5) : List ASection :=
  (selectPass2 maxSections ranked (selectPass1 ranked maxSections).1).take maxSections

/-! ## Report formatting (`_format_extracted_sections`, `_format_sub_sections`) -/

/-- One entry of the report's `extracted_sections` list. -/
structure ExtractedEntry where
  document : List Char
  section_title : List Char
  importance_rank : ℕ
  page_number : ℕ
deriving DecidableEq, Repr

/-- One entry of the report's `subsection_analysis` list. -/
structure SubsectionEntry where
  document : List Char
  refined_text : List Char
  page_number : ℕ
deriving DecidableEq, Repr

/-- `enumerate(selected_sections)` starting at rank `i + 1`. -/
def formatExtractedFrom (i : ℕ) : List ASection → List ExtractedEntry
  | [] => []
  | s :: rest =>
    { document := s.document, section_title := s.text, importance_rank := i + 1,
      page_number := s.page + 1 } :: formatExtractedFrom (i + 1) rest

/-- `DocumentAnalyst._format_extracted_sections`. -/
def format_extracted_sections (selected : List ASection) : List ExtractedEntry :=
  formatExtractedFrom 0 selected

/-- `DocumentAnalyst._format_sub_sections`. -/
def format_sub_sections (selected : List ASection) : List SubsectionEntry :=
  selected.map (fun s =>
    { document := s.document, refined_text := format_refined s.content,
      page_number := s.page + 1 })

/-! ## Metadata challenge_info passthrough (`analyze` line 152, `main` line 245) -/

/-- A JSON object, modelled as an association list; `none` stands for
Python `None`. -/
abbrev JsonObj := List (List Char × List Char)

/-- Python truthiness of `analyze`'s `challenge_info` argument: `None` and
the empty dict are falsy. -/
def truthyObj : Option JsonObj → Bool
  | none => false
  | some [] => false
  | some (_ :: _) => true

/-- The `if challenge_info:` guard of `analyze`: the metadata carries the
`challenge_info` key exactly when the argument is truthy. -/
def metadataChallengeInfo (ci : Option JsonObj) : Option JsonObj :=
  if truthyObj ci then ci else none

/-- The composition with `main`'s `input_data.get('challenge_info', {})`:
an absent request field becomes the empty dict before being passed to
`analyze`. -/
def report_challenge_info (req : Option JsonObj) : Option JsonObj :=
  metadataChallengeInfo (some (req.getD []))

/-! ## Concrete instances used in counterexamples and witnesses -/

/-- A ranked pool: three sections of document A above one of document B. -/
def secA1 : ASection := ⟨"A.pdf".data, "a1".data, 0, "ca1".data, mkRat 9 10⟩

/-- Second-ranked section, document A. -/
def secA2 : ASection := ⟨"A.pdf".data, "a2".data, 1, "ca2".data, mkRat 8 10⟩

/-- Third-ranked section, document A. -/
def secA3 : ASection := ⟨"A.pdf".data, "a3".data, 2, "ca3".data, mkRat 7 10⟩

/-- Fourth-ranked section, document B. -/
def secB1 : ASection := ⟨"B.pdf".data, "b1".data, 0, "cb1".data, mkRat 6 10⟩

/-- A descending-ranked input on which pass 2 reorders relative to pass 1. -/
def cexRanked : List ASection := [secA1, secA2, secA3, secB1]

/-- A one-page document with a large-font heading line and a body line. -/
def docSimple : RawDoc :=
  [[Block.text [[⟨"Title line".data, 20, 16, 0⟩], [⟨"Body text here".data, 10, 0, 0⟩]]]]

/-- A document with a single span whose text is empty: spans exist but the
total character count is zero. -/
def docZeroChars : RawDoc := [[Block.text [[⟨[], 10, 0, 0⟩]]]]

/-- Default `ExtractedEntry` for positional lookups. -/
def dExtracted : ExtractedEntry := ⟨[], [], 0, 0⟩

/-- Default `SubsectionEntry` for positional lookups. -/
def dSubsection : SubsectionEntry := ⟨[], [], 0⟩

/-- Default `ASection` for positional lookups. -/
def dASection : ASection := ⟨[], [], 0, [], 0⟩

/-! # Theorems -/

/-! ## Generic helper lemmas -/

/-- Folding the boost step over any keyword list adds one increment per
matching keyword. -/
theorem foldl_boost_count (t c : List Char) (kws : List (List Char)) :
    ∀ r : ℚ,
      kws.foldl (fun acc kw => if keywordHit kw t c then acc + mkRat 1 10 else acc) r
        = r + mkRat 1 10 * (kws.countP (fun kw => keywordHit kw t c) : ℚ) := by
  induction kws with
  | nil => intro r; simp
  | cons k ks ih =>
    intro r
    simp only [List.foldl_cons, List.countP_cons]
    by_cases h : keywordHit k t c = true
    · rw [if_pos h, ih, if_pos h]
      push_cast
      ring
    · rw [if_neg h, ih, if_neg h]
      simp

/-! ## C1 — keyword boost semantics -/

/-- C1 (counterexample): the claim says the +0.1 keyword boost is applied at
most once per section, so the final relevance exceeds the base cosine score
by at most 0.1.  For a section titled "Coastal beach" with base score 0 the
boost loop matches both "coastal" and "beach" and yields 0.2 = 1/5, which
exceeds the base score by more than 0.1. -/
theorem boost_once_counterexample :
    applyKeywordBoost 0 ("Coastal beach".data) [] = mkRat 1 5
  ∧ ¬ (applyKeywordBoost 0 ("Coastal beach".data) [] ≤ 0 + mkRat 1 10) := by
  constructor
  · decide
  · decide

/-- C1 (amended): the boost loop of the Relevance Scorer adds the +0.1
increment once per matching keyword (cumulative), so every section's final
relevance exceeds its base cosine score by exactly 0.1 times the number of
matching `boost_keywords`, and hence by at most 2.0 (20 keywords). -/
theorem boost_per_matching_keyword (rel : ℚ) (title content : List Char) :
    applyKeywordBoost rel title content
      = rel + mkRat 1 10 * (boost_keywords.countP (fun kw => keywordHit kw title content) : ℚ)
  ∧ applyKeywordBoost rel title content ≤ rel + 2 := by
  have h := foldl_boost_count title content boost_keywords rel
  refine ⟨h, ?_⟩
  have hle : boost_keywords.countP (fun kw => keywordHit kw title content)
      ≤ boost_keywords.length := List.countP_le_length _
  have hlen : boost_keywords.length = 20 := by decide
  have hq : (boost_keywords.countP (fun kw => keywordHit kw title content) : ℚ) ≤ 20 := by
    exact_mod_cast hlen ▸ hle
  have hmk : (mkRat 1 10 : ℚ) = 1 / 10 := by
    rw [Rat.mkRat_eq_div]
    norm_num
  unfold applyKeywordBoost
  rw [h, hmk]
  linarith

/-! ## C4 — the Heading Classifier is the OR of the four signals -/

/-- C4: the Heading Classifier returns true iff at least one of the four
signals holds: font size above 1.1 times the document average; bold with
font size above 0.9 times the average; a heading-marker pattern match; or
bold with text shorter than 100 characters.  Purity in the inputs
`(text, font_size, is_bold, average)` is intrinsic: `is_heading` is a
function of exactly these four arguments. -/
theorem heading_classifier_iff (t : List Char) (fs : ℚ) (b : Bool) (avg : ℚ) :
    is_heading t fs b avg = true ↔
      (avg * mkRat 11 10 < fs
        ∨ (b = true ∧ avg * mkRat 9 10 < fs)
        ∨ is_heading_pattern t = true
        ∨ (b = true ∧ t.length < 100)) := by
  simp only [is_heading, Bool.or_eq_true, Bool.and_eq_true, decide_eq_true_eq]
  tauto

/-! ## C7 — failed extraction contributes zero sections -/

/-- C7: a document whose extraction fails is modelled by `Except.error`; the
Segmenter returns zero sections for it (the exception is caught, never
escaping to the Orchestrator, whose loop is total), and the pooled section
list — from which the rest of the report is computed — is exactly the pool
of the remaining documents. -/
theorem failed_document_isolated (pre post : List (List Char × Except String RawDoc))
    (name : List Char) (err : String) :
    extract_structure (Except.error err) = []
  ∧ pool_sections (pre ++ (name, Except.error err) :: post) = pool_sections (pre ++ post) := by
  constructor
  · rfl
  · simp [pool_sections, extract_structure]

/-! ## C10 — challenge_info passthrough -/

/-- C10: the report metadata carries no `challenge_info` key exactly when
the request's field is absent or an empty object; a present, non-empty
object is passed through unchanged. -/
theorem challenge_info_passthrough (req : Option JsonObj) :
    (report_challenge_info req = none ↔ (req = none ∨ req = some []))
  ∧ (∀ x : JsonObj, req = some x → x ≠ [] → report_challenge_info req = some x) := by
  constructor
  · cases req with
    | none => simp [report_challenge_info, metadataChallengeInfo, truthyObj]
    | some l =>
      cases l with
      | nil => simp [report_challenge_info, metadataChallengeInfo, truthyObj]
      | cons a as => simp [report_challenge_info, metadataChallengeInfo, truthyObj]
  · intro x hx hne
    subst hx
    cases x with
    | nil => exact absurd rfl hne
    | cons a as => simp [report_challenge_info, metadataChallengeInfo, truthyObj]

/-- C10 (witness): an absent field yields no metadata key; a non-empty
object passes through. -/
theorem challenge_info_passthrough_witness :
    report_challenge_info none = none
  ∧ report_challenge_info (some [("k".data, "v".data)]) = some [("k".data, "v".data)] :=
  ⟨(challenge_info_passthrough none).1.mpr (Or.inl rfl),
   (challenge_info_passthrough (some [("k".data, "v".data)])).2 _ rfl (by simp)⟩

/-! ## Selector lemmas -/

/-- Updating the per-document counter at a key makes lookup return the new
value. -/
theorem dictGet_dictSet_self (m : List (List Char × ℕ)) (k : List Char) (v : ℕ) :
    dictGet (dictSet m k v) k = v := by
  induction m with
  | nil => simp [dictGet, dictSet]
  | cons p rest ih =>
    by_cases h : p.1 = k
    · simp [dictGet, dictSet, h]
    · simp [dictGet, dictSet, h, ih]

/-- Updating the counter at one key leaves lookups at other keys unchanged. -/
theorem dictGet_dictSet_ne (m : List (List Char × ℕ)) (k k' : List Char) (v : ℕ)
    (h : k' ≠ k) : dictGet (dictSet m k v) k' = dictGet m k' := by
  induction m with
  | nil => simp [dictGet, dictSet, Ne.symm h]
  | cons p rest ih =>
    by_cases hp : p.1 = k
    · have hne : p.1 ≠ k' := by rw [hp]; exact Ne.symm h
      simp [dictGet, dictSet, hp, hne, Ne.symm h]
    · by_cases hp' : p.1 = k'
      · simp [dictGet, dictSet, hp, hp', h]
      · simp [dictGet, dictSet, hp, hp', ih]

/-- Invariant of the selector's first pass: the per-document counter always
equals the number of admitted sections of that document, and never exceeds
two. -/
theorem pass1_fold_inv (maxSections : ℕ) (l : List ASection) :
    ∀ (sel : List ASection) (dc : List (List Char × ℕ)),
      (∀ d, dictGet dc d = sel.countP (fun x => decide (x.document = d))
        ∧ dictGet dc d ≤ 2) →
      ∀ d, dictGet (l.foldl (pass1Step maxSections) (sel, dc)).2 d
            = (l.foldl (pass1Step maxSections) (sel, dc)).1.countP
                (fun x => decide (x.document = d))
        ∧ dictGet (l.foldl (pass1Step maxSections) (sel, dc)).2 d ≤ 2 := by
  induction l with
  | nil => intro sel dc h d; exact h d
  | cons s rest ih =>
    intro sel dc h d
    simp only [List.foldl_cons, pass1Step]
    by_cases hc : dictGet dc s.document < 2 ∧ sel.length < maxSections
    · rw [if_pos hc]
      apply ih
      intro d'
      by_cases hd : s.document = d'
      · subst hd
        rw [dictGet_dictSet_self]
        constructor
        · rw [(h s.document).1]
          simp [List.countP_append]
        · have := (h s.document).1
          omega
      · rw [dictGet_dictSet_ne _ _ _ _ (Ne.symm hd)]
        constructor
        · rw [(h d').1]
          simp [List.countP_append, hd]
        · exact (h d').2
    · rw [if_neg hc]
      exact ih sel dc h d

/-- The selector's first pass appends an order-preserving subsequence of its
input to the running selection. -/
theorem pass1_fold_sublist (maxSections : ℕ) (l : List ASection) :
    ∀ (sel : List ASection) (dc : List (List Char × ℕ)),
      ∃ q : List ASection,
        (l.foldl (pass1Step maxSections) (sel, dc)).1 = sel ++ q ∧ q.Sublist l := by
  induction l with
  | nil => intro sel dc; exact ⟨[], by simp, by simp⟩
  | cons s rest ih =>
    intro sel dc
    simp only [List.foldl_cons, pass1Step]
    by_cases hc : dictGet dc s.document < 2 ∧ sel.length < maxSections
    · rw [if_pos hc]
      obtain ⟨q, hq, hs⟩ := ih (sel ++ [s]) (dictSet dc s.document (dictGet dc s.document + 1))
      exact ⟨s :: q, by simpa [List.append_assoc] using hq, hs.cons₂ s⟩
    · rw [if_neg hc]
      obtain ⟨q, hq, hs⟩ := ih sel dc
      exact ⟨q, hq, hs.cons s⟩

/-- The selector's second pass appends an order-preserving subsequence of
its scan list to the running selection. -/
theorem pass2_sublist (maxSections : ℕ) (l : List ASection) :
    ∀ sel : List ASection,
      ∃ q : List ASection, selectPass2 maxSections l sel = sel ++ q ∧ q.Sublist l := by
  induction l with
  | nil => intro sel; exact ⟨[], by simp [selectPass2], by simp⟩
  | cons s rest ih =>
    intro sel
    simp only [selectPass2]
    by_cases h1 : maxSections ≤ sel.length
    · rw [if_pos h1]
      exact ⟨[], by simp, by simp⟩
    · rw [if_neg h1]
      by_cases h2 : s ∈ sel
      · rw [if_pos h2]
        obtain ⟨q, hq, hs⟩ := ih sel
        exact ⟨q, hq, hs.cons s⟩
      · rw [if_neg h2]
        obtain ⟨q, hq, hs⟩ := ih (sel ++ [s])
        exact ⟨s :: q, by simpa [List.append_assoc] using hq, hs.cons₂ s⟩

/-! ## C3 — selection bound and pass-1 diversity cap -/

/-- C3: the Diverse Top-K Selector returns at most `max_sections` sections,
and after pass 1 no source document has more than two admitted sections. -/
theorem selector_bounds (ranked : List ASection) (maxSections : ℕ) :
    (select_diverse_sections ranked maxSections).length ≤ maxSections
  ∧ ∀ d, (selectPass1 ranked maxSections).1.countP
        (fun s => decide (s.document = d)) ≤ 2 := by
  constructor
  · simp [select_diverse_sections, List.length_take]
  · intro d
    have h := pass1_fold_inv maxSections ranked [] []
      (by intro d'; simp [dictGet]) d
    have h1 := h.1
    have h2 := h.2
    unfold selectPass1
    rw [← h1]
    exact h2

/-! ## C2 — ranked-order preservation across the two passes -/

/-- C2 (counterexample): the claim says the selector's output is an
order-preserving subsequence of the ranked input.  On the descending-ranked
pool `cexRanked` (three sections of document A above one of document B) with
`max_sections = 4`, pass 1 admits a1, a2, b1 and pass 2 appends a3 after
b1, although a3 precedes b1 in the ranked input. -/
theorem selector_order_counterexample :
    cexRanked.Pairwise (fun s t => t.relevance ≤ s.relevance)
  ∧ select_diverse_sections cexRanked 4 = [secA1, secA2, secB1, secA3]
  ∧ (select_diverse_sections cexRanked 4).indexOf secB1
      < (select_diverse_sections cexRanked 4).indexOf secA3
  ∧ cexRanked.indexOf secA3 < cexRanked.indexOf secB1 := by
  refine ⟨by decide, by decide, by decide, by decide⟩

/-- C2 (amended): for every ranked input, the selector's output is the
`max_sections`-truncation of a concatenation of two order-preserving
subsequences of the input — the pass-1 selection followed by the pass-2
fill.  Each pass preserves ranked order, but the fill is appended after the
pass-1 selection, so the output as a whole need not be an order-preserving
subsequence. -/
theorem selector_two_ordered_passes (ranked : List ASection) (maxSections : ℕ)
    (hranked : ranked.Pairwise (fun s t => t.relevance ≤ s.relevance)) :
    ∃ (p q : List ASection),
      select_diverse_sections ranked maxSections = (p ++ q).take maxSections
      ∧ p.Sublist ranked ∧ q.Sublist ranked := by
  obtain ⟨p, hp, hps⟩ := pass1_fold_sublist maxSections ranked [] []
  obtain ⟨q, hq, hqs⟩ := pass2_sublist maxSections ranked (selectPass1 ranked maxSections).1
  refine ⟨p, q, ?_, hps, hqs⟩
  have hp1 : (selectPass1 ranked maxSections).1 = p := by
    simpa [selectPass1] using hp
  rw [select_diverse_sections, hq, hp1]

/-- C2 (witness for the amended claim), at the concrete descending-ranked
pool `cexRanked`. -/
theorem selector_two_ordered_passes_witness :
    ∃ (p q : List ASection),
      select_diverse_sections cexRanked 4 = (p ++ q).take 4
      ∧ p.Sublist cexRanked ∧ q.Sublist cexRanked :=
  selector_two_ordered_passes cexRanked 4 (by decide)

/-! ## C9 — the two report lists are aligned -/

/-- The `extracted_sections` formatter preserves length. -/
theorem formatExtractedFrom_length (l : List ASection) :
    ∀ n, (formatExtractedFrom n l).length = l.length := by
  induction l with
  | nil => intro n; rfl
  | cons s rest ih =>
    intro n
    simp [formatExtractedFrom, ih]

/-- Positional description of the `extracted_sections` formatter. -/
theorem formatExtractedFrom_get? (l : List ASection) :
    ∀ (n i : ℕ),
      (formatExtractedFrom n l).get? i
        = (l.get? i).map (fun s =>
            { document := s.document, section_title := s.text,
              importance_rank := n + i + 1, page_number := s.page + 1 }) := by
  induction l with
  | nil => intro n i; simp [formatExtractedFrom]
  | cons s rest ih =>
    intro n i
    cases i with
    | zero => simp [formatExtractedFrom]
    | succ j =>
      simp only [formatExtractedFrom, List.get?_cons_succ, ih (n + 1) j]
      simp only [show n + 1 + j + 1 = n + (j + 1) + 1 from by omega]

/-- C9: `extracted_sections` and `subsection_analysis` have the same length
(the number of selected sections); for every index the two entries are
built from the same selected section, agreeing on document and on page
number (the section's 0-based page plus one); ranks are `i + 1` and the
refined text is the refinement of that same section's body — both lists in
selection order. -/
theorem report_lists_aligned (selected : List ASection) :
    (format_extracted_sections selected).length = (format_sub_sections selected).length
  ∧ (format_extracted_sections selected).length = selected.length
  ∧ ∀ i, i < selected.length →
      ((format_extracted_sections selected).getD i dExtracted).document
          = ((format_sub_sections selected).getD i dSubsection).document
      ∧ ((format_extracted_sections selected).getD i dExtracted).document
          = (selected.getD i dASection).document
      ∧ ((format_extracted_sections selected).getD i dExtracted).page_number
          = ((format_sub_sections selected).getD i dSubsection).page_number
      ∧ ((format_extracted_sections selected).getD i dExtracted).page_number
          = (selected.getD i dASection).page + 1
      ∧ ((format_extracted_sections selected).getD i dExtracted).importance_rank = i + 1
      ∧ ((format_sub_sections selected).getD i dSubsection).refined_text
          = format_refined ((selected.getD i dASection).content) := by
  refine ⟨?_, ?_, ?_⟩
  · simp [format_extracted_sections, format_sub_sections, formatExtractedFrom_length]
  · simp [format_extracted_sections, formatExtractedFrom_length]
  · intro i hi
    have hx : selected.get? i = some (selected.get ⟨i, hi⟩) := List.get?_eq_get hi
    simp only [format_extracted_sections, format_sub_sections, List.getD_eq_get?,
      formatExtractedFrom_get?, List.get?_map, hx, Option.map_some', Option.getD_some,
      Nat.zero_add]
    simp [List.getD_eq_get?, hx]

/-- C9 (witness) at a concrete two-section selection. -/
theorem report_lists_aligned_witness :
    ((format_extracted_sections [secA1, secB1]).getD 1 dExtracted).document
        = ((format_sub_sections [secA1, secB1]).getD 1 dSubsection).document
    ∧ ((format_extracted_sections [secA1, secB1]).getD 1 dExtracted).page_number
        = ([secA1, secB1].getD 1 dASection).page + 1 := by
  have h := (report_lists_aligned [secA1, secB1]).2.2 1 (by decide)
  exact ⟨h.1, h.2.2.2.1⟩

/-! ## rfind lemmas -/

/-- `rfind` never returns less than `-1`. -/
theorem rfindC_ge (cs : List Char) (t : Char) : -1 ≤ rfindC cs t := by
  induction cs with
  | nil => simp [rfindC]
  | cons c cs ih =>
    simp only [rfindC]
    split
    · omega
    · split <;> omega

/-- `rfind` stays below the length of the scanned list. -/
theorem rfindC_lt (cs : List Char) (t : Char) : rfindC cs t < (cs.length : Int) := by
  induction cs with
  | nil => simp [rfindC]
  | cons c cs ih =>
    simp only [rfindC, List.length_cons]
    split
    · push_cast
      omega
    · split <;> push_cast <;> omega

/-- When `rfind` succeeds, the character at the returned index is the target. -/
theorem rfindC_get? (cs : List Char) (t : Char) :
    0 ≤ rfindC cs t → cs.get? (rfindC cs t).toNat = some t := by
  induction cs with
  | nil => intro h; simp [rfindC] at h
  | cons c cs ih =>
    intro h
    by_cases h0 : 0 ≤ rfindC cs t
    · have hv : rfindC (c :: cs) t = rfindC cs t + 1 := by
        simp [rfindC, h0]
      rw [hv]
      have ht : (rfindC cs t + 1).toNat = (rfindC cs t).toNat + 1 := by omega
      rw [ht, List.get?_cons_succ]
      exact ih h0
    · by_cases hct : c = t
      · have hv : rfindC (c :: cs) t = 0 := by
          simp [rfindC, h0, hct]
        rw [hv]
        simp [hct]
      · have hv : rfindC (c :: cs) t = -1 := by
          simp [rfindC, h0, hct]
        rw [hv] at h
        omega

/-- No occurrence of the target lies strictly beyond the `rfind` index. -/
theorem rfindC_after (cs : List Char) (t : Char) :
    ∀ j : ℕ, rfindC cs t < (j : Int) → ∀ x, cs.get? j = some x → x ≠ t := by
  induction cs with
  | nil => intro j hj x hx; simp at hx
  | cons c cs ih =>
    intro j hj x hx
    cases j with
    | zero =>
      simp only [List.get?_cons_zero, Option.some_inj] at hx
      subst hx
      intro hct
      by_cases h0 : 0 ≤ rfindC cs t
      · have hv : rfindC (c :: cs) t = rfindC cs t + 1 := by simp [rfindC, h0]
        rw [hv] at hj
        push_cast at hj
        omega
      · have hv : rfindC (c :: cs) t = 0 := by simp [rfindC, h0, hct]
        rw [hv] at hj
        omega
    | succ j' =>
      rw [List.get?_cons_succ] at hx
      apply ih j' ?_ x hx
      by_cases h0 : 0 ≤ rfindC cs t
      · have hv : rfindC (c :: cs) t = rfindC cs t + 1 := by simp [rfindC, h0]
        rw [hv] at hj
        push_cast at hj ⊢
        omega
      · omega

/-- The `lastSentenceEnd` index is at least the `rfind` of each of the three
terminal marks. -/
theorem rfindC_le_lastSentenceEnd (w : List Char) :
    rfindC w '.' ≤ lastSentenceEnd w
  ∧ rfindC w '!' ≤ lastSentenceEnd w
  ∧ rfindC w '?' ≤ lastSentenceEnd w := by
  unfold lastSentenceEnd
  exact ⟨le_max_left _ _, le_trans (le_max_left _ _) (le_max_right _ _),
    le_trans (le_max_right _ _) (le_max_right _ _)⟩

/-- No sentence-terminal character occurs strictly beyond `lastSentenceEnd`. -/
theorem lastSentenceEnd_after (w : List Char) (j : ℕ)
    (hj : lastSentenceEnd w < (j : Int)) :
    ∀ x, w.get? j = some x → isSentenceTerm x = false := by
  intro x hx
  obtain ⟨h1, h2, h3⟩ := rfindC_le_lastSentenceEnd w
  have hd := rfindC_after w '.' j (by omega) x hx
  have he := rfindC_after w '!' j (by omega) x hx
  have hq := rfindC_after w '?' j (by omega) x hx
  simp [isSentenceTerm, hd, he, hq]

/-- When some sentence-terminal character occurs, `lastSentenceEnd` points
at one. -/
theorem lastSentenceEnd_get? (w : List Char) (h : 0 ≤ lastSentenceEnd w) :
    ∃ x, w.get? (lastSentenceEnd w).toNat = some x ∧ isSentenceTerm x = true := by
  have hcases : lastSentenceEnd w = rfindC w '.'
      ∨ lastSentenceEnd w = rfindC w '!'
      ∨ lastSentenceEnd w = rfindC w '?' := by
    unfold lastSentenceEnd
    rcases max_cases (rfindC w '.') (max (rfindC w '!') (rfindC w '?')) with ⟨he, _⟩ | ⟨he, _⟩
    · exact Or.inl he
    · rcases max_cases (rfindC w '!') (rfindC w '?') with ⟨he2, _⟩ | ⟨he2, _⟩
      · exact Or.inr (Or.inl (he.trans he2))
      · exact Or.inr (Or.inr (he.trans he2))
  rcases hcases with he | he | he <;>
    [exact ⟨'.', by rw [he]; exact rfindC_get? w '.' (he ▸ h), by decide⟩;
     exact ⟨'!', by rw [he]; exact rfindC_get? w '!' (he ▸ h), by decide⟩;
     exact ⟨'?', by rw [he]; exact rfindC_get? w '?' (he ▸ h), by decide⟩]

/-- `rfind` returns `-1` when the target does not occur. -/
theorem rfindC_not_mem (cs : List Char) (t : Char) (h : t ∉ cs) : rfindC cs t = -1 := by
  induction cs with
  | nil => rfl
  | cons c cs ih =>
    have h1 : t ∉ cs := fun hm => h (List.mem_cons_of_mem c hm)
    have h2 : ¬ c = t := fun he => h (he ▸ List.mem_cons_self c cs)
    simp [rfindC, ih h1, h2]

/-! ## C5 — the Excerpt Refiner's case analysis -/

/-- C5: the Excerpt Refiner first collapses whitespace runs and trims; a
normalized text of at most 500 characters is returned unchanged; otherwise
the refiner works on the first-400-character window: when the last
sentence-terminal mark of the window (and nothing after the returned index
is such a mark, per the last two conjuncts) lies strictly beyond position
200, the result is the window's prefix ending exactly after that mark, of
length at most 401; otherwise the result is the first 300 characters plus
the three-dot ellipsis. -/
theorem excerpt_refine_cases (content : List Char) :
    ((normalizeWs content).length ≤ 500 → format_refined content = normalizeWs content)
  ∧ (500 < (normalizeWs content).length →
      200 < lastSentenceEnd ((normalizeWs content).take 400) →
        format_refined content
          = ((normalizeWs content).take 400).take
              ((lastSentenceEnd ((normalizeWs content).take 400)).toNat + 1)
        ∧ (format_refined content).length ≤ 401)
  ∧ (500 < (normalizeWs content).length →
      lastSentenceEnd ((normalizeWs content).take 400) ≤ 200 →
        format_refined content
          = (normalizeWs content).take 300 ++ ('.' :: '.' :: '.' :: []))
  ∧ (∀ j : ℕ, lastSentenceEnd ((normalizeWs content).take 400) < (j : Int) →
      ∀ x, ((normalizeWs content).take 400).get? j = some x → isSentenceTerm x = false)
  ∧ (0 ≤ lastSentenceEnd ((normalizeWs content).take 400) →
      ∃ x, ((normalizeWs content).take 400).get?
              (lastSentenceEnd ((normalizeWs content).take 400)).toNat = some x
        ∧ isSentenceTerm x = true) := by
  refine ⟨?_, ?_, ?_, ?_, ?_⟩
  · intro h
    unfold format_refined
    rw [if_neg (by omega)]
  · intro h1 h2
    unfold format_refined
    rw [if_pos h1, if_pos h2]
    refine ⟨rfl, ?_⟩
    simp only [List.length_take]
    omega
  · intro h1 h2
    unfold format_refined
    rw [if_pos h1, if_neg (by omega)]
  · exact lastSentenceEnd_after _
  · exact lastSentenceEnd_get? _

set_option maxRecDepth 10000 in
/-- C5 (witness): a short body is returned unchanged; a 501-character body
with no sentence marks falls back to 300 characters plus the ellipsis. -/
theorem excerpt_refine_cases_witness :
    format_refined ("Hello world.".data) = "Hello world.".data
  ∧ format_refined (List.replicate 501 'a')
      = List.replicate 300 'a' ++ ('.' :: '.' :: '.' :: []) := by
  constructor
  · have h := (excerpt_refine_cases ("Hello world.".data)).1 (by decide)
    rw [h]
    decide
  · have hnorm : normalizeWs (List.replicate 501 'a') = List.replicate 501 'a' := by decide
    have hlen : 500 < (normalizeWs (List.replicate 501 'a')).length := by
      rw [hnorm]
      simp
    have hnm : ∀ ch : Char, ch ≠ 'a' →
        ch ∉ (normalizeWs (List.replicate 501 'a')).take 400 := by
      intro ch hne hm
      rw [hnorm] at hm
      have := List.mem_of_mem_take hm
      rw [List.eq_of_mem_replicate this] at hne
      exact hne rfl
    have hlast : lastSentenceEnd ((normalizeWs (List.replicate 501 'a')).take 400) = -1 := by
      unfold lastSentenceEnd
      rw [rfindC_not_mem _ _ (hnm '.' (by decide)),
        rfindC_not_mem _ _ (hnm '!' (by decide)),
        rfindC_not_mem _ _ (hnm '?' (by decide))]
      decide
    have h := (excerpt_refine_cases (List.replicate 501 'a')).2.2.1 hlen
      (by rw [hlast]; decide)
    rw [h, hnorm]
    decide

/-! ## Segmenter lemmas -/

/-- One segmentation step never adds a blank-bodied section to the closed
list: the only section it can close is the current one, and only under the
non-blank guard. -/
theorem processLine_keeps_nonblank (avg : ℚ) (pageNum : ℕ) (spans : List Span)
    (st : ExtractState)
    (h : ∀ s ∈ st.sections, stripChars s.content ≠ []) :
    ∀ s ∈ (processLine avg pageNum spans st).sections, stripChars s.content ≠ [] := by
  unfold processLine
  split
  · exact h
  · split
    · exact h
    · split
      · intro s hs
        dsimp only at hs
        by_cases hg : stripChars st.current.content ≠ []
        · rw [if_pos hg] at hs
          rcases List.mem_append.mp hs with h1 | h2
          · exact h s h1
          · rw [List.mem_singleton] at h2
            subst h2
            exact hg
        · rw [if_neg hg] at hs
          exact h s hs
      · exact h

/-- Folding the segmentation step preserves the non-blank invariant of the
closed-sections list. -/
theorem foldLines_nonblank (avg : ℚ) (lines : List (ℕ × List Span)) :
    ∀ st : ExtractState, (∀ s ∈ st.sections, stripChars s.content ≠ []) →
      ∀ s ∈ (lines.foldl (fun st pl => processLine avg pl.1 pl.2 st) st).sections,
        stripChars s.content ≠ [] := by
  induction lines with
  | nil => intro st h; exact h
  | cons pl rest ih =>
    intro st h
    simp only [List.foldl_cons]
    exact ih _ (processLine_keeps_nonblank avg pl.1 pl.2 st h)

/-! ## C6 — every emitted Section has a non-blank body -/

/-- C6: every section emitted by the Segmenter has non-blank body text;
segmentation is seeded with the synthetic
`{level: title, heading_text: "Introduction", page_index: 0}` section; a
line whose text is exactly the seed literal never opens a new section (the
step leaves the open section's identity and the closed list unchanged,
only accumulating the body); and a current section with blank accumulated
body is discarded rather than emitted (first conjunct). -/
theorem segmenter_nonblank_bodies (doc : Except String RawDoc) :
    (∀ s ∈ extract_structure doc, stripChars s.content ≠ [])
  ∧ (seedSection.level = "title".data ∧ seedSection.text = "Introduction".data
      ∧ seedSection.page = 0 ∧ seedSection.content = [])
  ∧ (∀ (avg : ℚ) (pageNum : ℕ) (spans : List Span) (st : ExtractState),
      lineTextOf spans = "Introduction".data →
        (processLine avg pageNum spans st).sections = st.sections
      ∧ (processLine avg pageNum spans st).current.level = st.current.level
      ∧ (processLine avg pageNum spans st).current.text = st.current.text
      ∧ (processLine avg pageNum spans st).current.page = st.current.page) := by
  refine ⟨?_, ⟨rfl, rfl, rfl, rfl⟩, ?_⟩
  · cases doc with
    | error e => intro s hs; simp [extract_structure] at hs
    | ok d =>
      simp only [extract_structure]
      cases havg : calculate_average_font_size d with
      | error e => intro s hs; simp at hs
      | ok avg =>
        simp only [extractLoop]
        by_cases hg : stripChars (extractFold avg d).current.content ≠ []
        · rw [if_pos hg]
          intro s hs
          rcases List.mem_append.mp hs with h1 | h2
          · exact foldLines_nonblank avg (extractLines d) ⟨seedSection, []⟩
              (by intro s hs; simp at hs) s h1
          · rw [List.mem_singleton] at h2
            subst h2
            exact hg
        · rw [if_neg hg]
          exact foldLines_nonblank avg (extractLines d) ⟨seedSection, []⟩
            (by intro s hs; simp at hs)
  · intro avg pageNum spans st h
    unfold processLine
    rw [if_neg (by rw [h]; decide)]
    cases hs : sortSpans spans with
    | nil =>
      exfalso
      have hempty : lineTextOf spans = [] := by
        unfold lineTextOf
        rw [hs]
        rfl
      rw [h] at hempty
      exact absurd hempty (by decide)
    | cons s0 rest =>
      have hcond : ¬ (is_heading (lineTextOf spans) s0.size
            (decide (s0.flags &&& 16 ≠ 0)) avg = true
          ∧ lineTextOf spans ≠ "Introduction".data) := fun hc => hc.2 h
      dsimp only
      rw [if_neg hcond]
      exact ⟨rfl, rfl, rfl, rfl⟩

/-- C6 (witness): the single emitted section of `docSimple` has a non-blank
body, and a line reading exactly "Introduction" does not close or open a
section. -/
theorem segmenter_nonblank_bodies_witness :
    stripChars (PSection.mk "H1".data "Title line".data 0 "Body text here ".data).content ≠ []
  ∧ (processLine 12 3 [⟨"Introduction".data, 12, 0, 0⟩] ⟨seedSection, []⟩).sections = [] := by
  constructor
  · exact (segmenter_nonblank_bodies (Except.ok docSimple)).1 _ (by decide)
  · exact ((segmenter_nonblank_bodies (Except.ok docSimple)).2.2 12 3
      [⟨"Introduction".data, 12, 0, 0⟩] ⟨seedSection, []⟩ (by decide)).1

/-! ## C8 — zero total characters make the average font size raise -/

/-- C8: when a document has at least one span but all spans carry empty
text, the character-weighted average hits a division by zero (modelled as
`Except.error`), so `extract_structure` catches it and yields zero
sections; the `12.0` default applies only when there are no spans at all. -/
theorem avg_font_size_divzero (d : RawDoc) :
    (docSpans d ≠ [] → (∀ s ∈ docSpans d, s.text = []) →
        calculate_average_font_size d = Except.error "ZeroDivisionError"
      ∧ extract_structure (Except.ok d) = [])
  ∧ (docSpans d = [] → calculate_average_font_size d = Except.ok 12) := by
  constructor
  · intro hne hall
    have htot : ((docSpans d).map (fun s => s.text.length)).sum = 0 := by
      apply List.sum_eq_zero
      intro x hx
      obtain ⟨s, hs, rfl⟩ := List.mem_map.mp hx
      rw [hall s hs]
      rfl
    have hcalc : calculate_average_font_size d = Except.error "ZeroDivisionError" := by
      unfold calculate_average_font_size
      rw [if_neg hne, if_pos htot]
    refine ⟨hcalc, ?_⟩
    simp [extract_structure, hcalc]
  · intro h
    unfold calculate_average_font_size
    rw [if_pos h]

/-- C8 (witness): the one-empty-span document raises and yields zero
sections. -/
theorem avg_font_size_divzero_witness :
    calculate_average_font_size docZeroChars = Except.error "ZeroDivisionError"
  ∧ extract_structure (Except.ok docZeroChars) = [] :=
  (avg_font_size_divzero docZeroChars).1 (by decide) (by decide)
